import Mathlib

/-!
Verification development for the pixi-graph rendering layer.

The definitions below are shallow embeddings of the TypeScript source:
style resolution (src/utils/style.ts together with the deepmerge library
it calls), the texture cache (src/textures.ts), level-of-detail visibility
(src/graph.ts updateGraphVisibility and src/renderers), edge geometry
(src/edge.ts), the hover/drag state machines of PixiGraph (src/graph.ts),
and the resetView bounding-box computation (src/graph.ts) over a model of
JavaScript number semantics with infinities.
-/

/-! ## Style resolver (src/utils/style.ts) -/

/-- Leaf values appearing in styles: numbers and strings (string also
stands in for the TextType enum). -/
inductive StyleValue where
  | num : ℚ → StyleValue
  | str : String → StyleValue
deriving DecidableEq

/-- A fully resolved style: a tree of leaf values, as produced by
`resolveStyleDefinition`. Mirrors plain JS objects. -/
inductive Style where
  | value : StyleValue → Style
  | obj : List (String × Style) → Style

/-- Key lookup in a JS-object-like association list (first match). -/
def lookupKey {β : Type} : List (String × β) → String → Option β
  | [], _ => none
  | (k2, v) :: rest, k => if k2 = k then some v else lookupKey rest k

/-- The own fields of a JS value: none for a primitive. -/
def fieldsOf : Style → List (String × Style)
  | .value _ => []
  | .obj fs => fs

theorem lookupKey_sizeOf {fs : List (String × Style)} {k : String} {v : Style}
    (h : lookupKey fs k = some v) : sizeOf v < sizeOf fs := by
  induction fs with
  | nil => simp [lookupKey] at h
  | cons hd rest ih =>
    obtain ⟨k2, w⟩ := hd
    simp only [lookupKey] at h
    by_cases hk : k2 = k
    · subst hk
      rw [if_pos rfl] at h
      cases h
      simp only [Prod.mk.sizeOf_spec, List.cons.sizeOf_spec]
      omega
    · simp only [if_neg hk] at h
      have := ih h
      simp only [List.cons.sizeOf_spec]
      omega

mutual
/-- Deep merge following the deepmerge library used by
`resolveStyleDefinitions`: the destination carries the target's fields (with
fields also present in the source overridden: recursively merged when the
source field is an object, replaced when it is a primitive), followed by the
source fields absent from the target. A primitive source contributes no
fields. -/
def mergeStyle : Style → Style → Style
  | t, .value _ => .obj (fieldsOf t)
  | t, .obj sfs =>
      .obj (((fieldsOf t).map (fun p => (p.1, mergeEntry p.2 sfs p.1)))
        ++ sfs.filter (fun q => (lookupKey (fieldsOf t) q.1).isNone))
termination_by _t s => (sizeOf s, 1)

/-- Resolution of one target field against the source object during the
deep merge. -/
def mergeEntry (tv : Style) (sfs : List (String × Style)) (k : String) : Style :=
  match h : lookupKey sfs k with
  | none => tv
  | some (.value v) => .value v
  | some (.obj s2) => mergeStyle tv (.obj s2)
termination_by (sizeOf sfs, 0)
decreasing_by
  have := lookupKey_sizeOf h
  simp only [Prod.lex_def]
  left
  omega
end

/-- `deepmerge.all`: left fold of the pairwise merge starting from the
empty object. -/
def mergeAll (styles : List Style) : Style := styles.foldl mergeStyle (Style.obj [])

/-- An unresolved style definition (`StyleDefinition` in src/utils/style.ts):
a literal value, a partial structure of definitions, or a function from
entity attributes to a resolved style. -/
inductive StyleDef (A : Type) where
  | lit : StyleValue → StyleDef A
  | obj : List (String × StyleDef A) → StyleDef A
  | func : (A → Style) → StyleDef A

mutual
/-- `resolveStyleDefinition`: a function is invoked with the attributes, an
object has each field resolved recursively, a literal is returned as is. -/
def resolveStyleDefinition {A : Type} : StyleDef A → A → Style
  | .func f, a => f a
  | .obj fs, a => .obj (resolveStyleFields fs a)
  | .lit v, _ => .value v

/-- Field-wise resolution of a partial structure. -/
def resolveStyleFields {A : Type} : List (String × StyleDef A) → A → List (String × Style)
  | [], _ => []
  | (k, d) :: rest, a => (k, resolveStyleDefinition d a) :: resolveStyleFields rest a
end

/-- `resolveStyleDefinitions`: drop absent (undefined) layers, resolve each
remaining definition with the attributes, then deep-merge left to right. -/
def resolveStyleDefinitions {A : Type} (styleDefinitions : List (Option (StyleDef A)))
    (attributes : A) : Style :=
  mergeAll ((styleDefinitions.filterMap id).map
    (fun styleDefinition => resolveStyleDefinition styleDefinition attributes))

/-- The style layers used by `PixiGraph.updateNodeStyle` /
`updateEdgeStyle`: built-in default, then the user style, then the hover
style only when the entity is hovered. -/
def styleLayers {A : Type} (defaultDef userDef hoverDef : StyleDef A) (hovered : Bool) :
    List (Option (StyleDef A)) :=
  [some defaultDef, some userDef, if hovered then some hoverDef else none]

/-- Walk a path of field names down a resolved style. -/
def getPath : List String → Style → Option Style
  | [], s => some s
  | _ :: _, .value _ => none
  | k :: rest, .obj fs =>
    match lookupKey fs k with
    | none => none
    | some v => getPath rest v

/-- The leaf value of a resolved style at a path, when the path ends at a
primitive. -/
def getLeaf (p : List String) (s : Style) : Option StyleValue :=
  match getPath p s with
  | some (.value v) => some v
  | _ => none

/-- `untouchedAt p s` holds when merging `s` on top of another style cannot
disturb a leaf sitting at path `p`: somewhere along `p` the source `s` has
no binding (a source that is a primitive at the root contributes no
fields at all). -/
def untouchedAt : List String → Style → Bool
  | _, .value _ => true
  | [], .obj _ => true
  | k :: rest, .obj sfs =>
    match lookupKey sfs k with
    | none => true
    | some (.value _) => false
    | some (.obj s2) => !rest.isEmpty && untouchedAt rest (.obj s2)

/-! ## Texture cache (src/textures.ts) -/

/-- A measured local bounding box (PIXI.Rectangle with rational
coordinates). -/
structure LocalBounds where
  x : ℚ
  y : ℚ
  width : ℚ
  height : ℚ
deriving DecidableEq

/-- The region rasterized by `TextureCache.get`: floor the origin, ceil the
size. -/
def roundedRegion (region : LocalBounds) : LocalBounds :=
  { x := (⌊region.x⌋ : ℚ), y := (⌊region.y⌋ : ℚ),
    width := (⌈region.width⌉ : ℚ), height := (⌈region.height⌉ : ℚ) }

/-- `outer` contains every point of `inner`. -/
def containsBounds (outer inner : LocalBounds) : Prop :=
  outer.x ≤ inner.x ∧ outer.y ≤ inner.y ∧
  inner.x + inner.width ≤ outer.x + outer.width ∧
  inner.y + inner.height ≤ outer.y + outer.height

/-- A throwaway scene fragment produced by a texture builder callback; only
its measured bounds matter here. -/
structure SceneFragment where
  localBounds : LocalBounds
deriving DecidableEq

/-- A generated texture: `renderer.generateTexture` rasterizes exactly the
rounded region of the fragment's bounds. -/
structure Texture where
  region : LocalBounds
deriving DecidableEq

/-- The texture-generation call made inside `TextureCache.get` on a cache
miss. -/
def generateTexture (container : SceneFragment) : Texture :=
  { region := roundedRegion container.localBounds }

/-- Result of `TextureCache.get`: the returned texture, the updated cache
map, and whether the builder callback was invoked. -/
structure CacheGetResult where
  texture : Texture
  textures : List (String × Texture)
  invoked : Bool
deriving DecidableEq

/-- `TextureCache.get`: return the stored texture, or invoke the callback,
rasterize its rounded bounds, and store the result under the key. -/
def cacheGet (textures : List (String × Texture)) (key : String)
    (defaultCallback : Unit → SceneFragment) : CacheGetResult :=
  match lookupKey textures key with
  | some texture => { texture := texture, textures := textures, invoked := false }
  | none =>
    let container := defaultCallback ()
    let texture := generateTexture container
    { texture := texture, textures := textures ++ [(key, texture)], invoked := true }

/-- Remove the entry under a key (JS `Map.delete`; keys are unique). -/
def eraseKey : List (String × Texture) → String → List (String × Texture)
  | [], _ => []
  | (k, t) :: rest, key => if k = key then rest else (k, t) :: eraseKey rest key

/-- `TextureCache.delete`: a no-op when the key is absent, otherwise destroy
the texture and remove the entry. -/
def cacheDelete (textures : List (String × Texture)) (key : String) :
    List (String × Texture) :=
  match lookupKey textures key with
  | none => textures
  | some _ => eraseKey textures key

/-! ## JavaScript number semantics with infinities (for resetView, C9) -/

/-- A JavaScript number as needed by `resetView`: a finite (rational) value,
one of the two infinities, or NaN. Rounding of finite values is not
modelled; the claims here only exercise exact values and infinities. -/
inductive JSNum where
  | fin : ℚ → JSNum
  | posInf : JSNum
  | negInf : JSNum
  | nan : JSNum
deriving DecidableEq

/-- JS unary minus. -/
def jsNeg : JSNum → JSNum
  | .fin q => .fin (-q)
  | .posInf => .negInf
  | .negInf => .posInf
  | .nan => .nan

/-- JS addition. -/
def jsAdd : JSNum → JSNum → JSNum
  | .nan, _ => .nan
  | _, .nan => .nan
  | .posInf, .negInf => .nan
  | .negInf, .posInf => .nan
  | .posInf, _ => .posInf
  | _, .posInf => .posInf
  | .negInf, _ => .negInf
  | _, .negInf => .negInf
  | .fin a, .fin b => .fin (a + b)

/-- JS subtraction. -/
def jsSub (a b : JSNum) : JSNum := jsAdd a (jsNeg b)

/-- JS `Math.abs`. -/
def jsAbs : JSNum → JSNum
  | .fin q => .fin |q|
  | .posInf => .posInf
  | .negInf => .posInf
  | .nan => .nan

/-- JS division by the literal 2. -/
def jsHalf : JSNum → JSNum
  | .fin q => .fin (q / 2)
  | .posInf => .posInf
  | .negInf => .negInf
  | .nan => .nan

/-- JS `Math.min` of two values (NaN propagates). -/
def jsMin2 : JSNum → JSNum → JSNum
  | .nan, _ => .nan
  | _, .nan => .nan
  | .posInf, b => b
  | a, .posInf => a
  | .negInf, _ => .negInf
  | _, .negInf => .negInf
  | .fin a, .fin b => .fin (min a b)

/-- JS `Math.max` of two values (NaN propagates). -/
def jsMax2 : JSNum → JSNum → JSNum
  | .nan, _ => .nan
  | _, .nan => .nan
  | .negInf, b => b
  | a, .negInf => a
  | .posInf, _ => .posInf
  | _, .posInf => .posInf
  | .fin a, .fin b => .fin (max a b)

/-- `Math.min(...xs)`: `Infinity` on an empty argument list. -/
def jsMinList (xs : List JSNum) : JSNum := xs.foldl jsMin2 .posInf

/-- `Math.max(...xs)`: `-Infinity` on an empty argument list. -/
def jsMaxList (xs : List JSNum) : JSNum := xs.foldl jsMax2 .negInf

/-- Whether a JS number is finite. -/
def JSNum.isFinite : JSNum → Bool
  | .fin _ => true
  | _ => false

/-- The viewport center computed by `PixiGraph.resetView` from the node
x/y attribute lists: bounding-box minima/maxima, width/height, then
`minX + width / 2` and `minY + height / 2`. -/
def resetViewCenter (nodesX nodesY : List ℚ) : JSNum × JSNum :=
  let minX := jsMinList (nodesX.map JSNum.fin)
  let maxX := jsMaxList (nodesX.map JSNum.fin)
  let minY := jsMinList (nodesY.map JSNum.fin)
  let maxY := jsMaxList (nodesY.map JSNum.fin)
  let width := jsAbs (jsSub maxX minX)
  let height := jsAbs (jsSub maxY minY)
  (jsAdd minX (jsHalf width), jsAdd minY (jsHalf height))

/-! ## Level of detail and visibility (src/graph.ts, src/renderers) -/

/-- JS `<=` on the numbers appearing in the zoom-step list (finite values
and `Infinity`). -/
def jsLe : JSNum → JSNum → Bool
  | .nan, _ => false
  | _, .nan => false
  | .negInf, _ => true
  | _, .posInf => true
  | .posInf, .fin _ => false
  | .posInf, .negInf => false
  | .fin _, .negInf => false
  | .fin a, .fin b => decide (a ≤ b)

/-- JS `Array.prototype.findIndex`: the index of the first match, `-1` when
none matches. -/
def jsFindIndex {α : Type} (p : α → Bool) : List α → Int
  | [] => -1
  | x :: rest =>
    if p x then 0
    else
      let r := jsFindIndex p rest
      if r = -1 then -1 else r + 1

/-- The zoom thresholds of `updateGraphVisibility`. -/
def zoomSteps : List JSNum := [.fin (1/10), .fin (2/10), .fin (4/10), .posInf]

/-- The level-of-detail index computed by `updateGraphVisibility`:
`zoomSteps.findIndex(zoomStep => zoom <= zoomStep)`. -/
def lodZoomStep (zoom : ℚ) : Int :=
  jsFindIndex (fun zoomStep => jsLe (.fin zoom) zoomStep) zoomSteps

/-- Visibility flags of the node sub-elements (post-culling values of
`visible`). -/
structure NodeGfxVisibility where
  circleVisible : Bool
  borderVisible : Bool
  iconVisible : Bool
deriving DecidableEq

/-- `updateNodeVisibility` (src/renderers/node.ts): the border needs LOD at
least 1, the icon at least 2; each stays hidden if culling already hid it.
The base circle is untouched. -/
def updateNodeVisibility (v : NodeGfxVisibility) (zoomStep : Int) : NodeGfxVisibility :=
  { v with
    borderVisible := v.borderVisible && decide (1 ≤ zoomStep),
    iconVisible := v.iconVisible && decide (2 ≤ zoomStep) }

/-- Visibility flags of the node label sub-elements. -/
structure NodeLabelVisibility where
  backgroundVisible : Bool
  textVisible : Bool
deriving DecidableEq

/-- `updateNodeLabelVisibility` (src/renderers/node-label.ts): background
and text both need LOD at least 3. -/
def updateNodeLabelVisibility (v : NodeLabelVisibility) (zoomStep : Int) : NodeLabelVisibility :=
  { backgroundVisible := v.backgroundVisible && decide (3 ≤ zoomStep),
    textVisible := v.textVisible && decide (3 ≤ zoomStep) }

/-- `updateEdgeVisibility` (src/renderers/edge.ts): the edge line needs LOD
at least 1. -/
def updateEdgeVisibility (lineVisible : Bool) (zoomStep : Int) : Bool :=
  lineVisible && decide (1 ≤ zoomStep)

/-- The level-of-detail index as the specification words it, "the smallest
i with z <= [0.1, 0.2, 0.4, Infinity][i]", written as a decision chain; the
comparison definition for the refinement theorem below. -/
def lodSpecIndex (zoom : ℚ) : Int :=
  if zoom ≤ 1/10 then 0 else if zoom ≤ 2/10 then 1 else if zoom ≤ 4/10 then 2 else 3

/-! ## Edge geometry (src/edge.ts) -/

/-- JS `Math.atan2` on real numbers (signed zeros are not distinguished,
which the claims here never exercise). -/
noncomputable def atan2 (y x : ℝ) : ℝ :=
  if 0 < x then Real.arctan (y / x)
  else if x < 0 then
    (if 0 ≤ y then Real.arctan (y / x) + Real.pi else Real.arctan (y / x) - Real.pi)
  else if 0 < y then Real.pi / 2
  else if y < 0 then -(Real.pi / 2)
  else 0

/-- JS `Math.hypot` of two arguments. -/
noncomputable def hypot (a b : ℝ) : ℝ := Real.sqrt (a ^ 2 + b ^ 2)

/-- The fields of the edge display object written by
`PixiEdge.updatePosition`. -/
structure EdgePosition where
  x : ℝ
  y : ℝ
  rotation : ℝ
  height : ℝ

/-- `PixiEdge.updatePosition`: midpoint position,
rotation `-atan2(dx, dy)`, height `hypot(dx, dy)` for the endpoint
difference `(dx, dy)`. -/
noncomputable def edgeUpdatePosition (sourceNodePosition targetNodePosition : ℝ × ℝ) :
    EdgePosition :=
  { x := (sourceNodePosition.1 + targetNodePosition.1) / 2,
    y := (sourceNodePosition.2 + targetNodePosition.2) / 2,
    rotation := -(atan2 (targetNodePosition.1 - sourceNodePosition.1)
      (targetNodePosition.2 - sourceNodePosition.2)),
    height := hypot (targetNodePosition.1 - sourceNodePosition.1)
      (targetNodePosition.2 - sourceNodePosition.2) }

/-! ## Hover state and layer restacking (src/graph.ts) -/

/-- The scene-graph elements owned by node view objects. -/
inductive Elem where
  | nodeGfx (key : String)
  | nodeLabelGfx (key : String)
  | nodePlaceholderGfx (key : String)
  | nodeLabelPlaceholderGfx (key : String)
deriving DecidableEq

/-- `Container.getChildIndex`: index of the first occurrence (PIXI throws
when absent; callers below establish presence). -/
def getChildIndex {α : Type} [DecidableEq α] : List α → α → Nat
  | [], _ => 0
  | x :: rest, e => if x = e then 0 else getChildIndex rest e + 1

/-- `Container.removeChildAt`. -/
def removeChildAt {α : Type} : List α → Nat → List α
  | [], _ => []
  | _ :: rest, 0 => rest
  | x :: rest, n + 1 => x :: removeChildAt rest n

/-- The state touched by the hover and drag handlers of `PixiGraph`: the
four node-related layers, the per-node hovered flags, and the externally
owned graph's node attributes (key, x, y). -/
structure ViewState where
  nodeLayer : List Elem
  nodeLabelLayer : List Elem
  frontNodeLayer : List Elem
  frontNodeLabelLayer : List Elem
  hoveredNodes : List String
  graphAttrs : List (String × ℚ × ℚ)
deriving DecidableEq

/-- `PixiGraph.hoverNode`: early return when already hovered; otherwise set
the flag, restyle (which reads, but does not write, the graph), remove the
node's slot index from all four layers, and append the placeholders to the
base layers and the real elements to the front layers. -/
def hoverNode (st : ViewState) (nodeKey : String) : ViewState :=
  if nodeKey ∈ st.hoveredNodes then st
  else
    let nodeIndex := getChildIndex st.nodeLayer (Elem.nodeGfx nodeKey)
    { nodeLayer := removeChildAt st.nodeLayer nodeIndex ++ [Elem.nodePlaceholderGfx nodeKey],
      nodeLabelLayer :=
        removeChildAt st.nodeLabelLayer nodeIndex ++ [Elem.nodeLabelPlaceholderGfx nodeKey],
      frontNodeLayer := removeChildAt st.frontNodeLayer nodeIndex ++ [Elem.nodeGfx nodeKey],
      frontNodeLabelLayer :=
        removeChildAt st.frontNodeLabelLayer nodeIndex ++ [Elem.nodeLabelGfx nodeKey],
      hoveredNodes := nodeKey :: st.hoveredNodes,
      graphAttrs := st.graphAttrs }

/-- `PixiGraph.unhoverNode`: early return when not hovered; otherwise clear
the flag, restyle, remove the slot index (taken from the front layer) from
all four layers, and append the real elements to the base layers and the
placeholders to the front layers. -/
def unhoverNode (st : ViewState) (nodeKey : String) : ViewState :=
  if nodeKey ∈ st.hoveredNodes then
    let nodeIndex := getChildIndex st.frontNodeLayer (Elem.nodeGfx nodeKey)
    { nodeLayer := removeChildAt st.nodeLayer nodeIndex ++ [Elem.nodeGfx nodeKey],
      nodeLabelLayer := removeChildAt st.nodeLabelLayer nodeIndex ++ [Elem.nodeLabelGfx nodeKey],
      frontNodeLayer :=
        removeChildAt st.frontNodeLayer nodeIndex ++ [Elem.nodePlaceholderGfx nodeKey],
      frontNodeLabelLayer :=
        removeChildAt st.frontNodeLabelLayer nodeIndex ++ [Elem.nodeLabelPlaceholderGfx nodeKey],
      hoveredNodes := st.hoveredNodes.erase nodeKey,
      graphAttrs := st.graphAttrs }
  else st

/-- `graph.setNodeAttribute(nodeKey, 'x', v)`: update the node's entry in
the key-addressed attribute map (keys are unique). -/
def setNodeAttributeX : List (String × ℚ × ℚ) → String → ℚ → List (String × ℚ × ℚ)
  | [], _, _ => []
  | (k2, xy) :: rest, nodeKey, v =>
    if k2 = nodeKey then (k2, v, xy.2) :: rest
    else (k2, xy) :: setNodeAttributeX rest nodeKey v

/-- `graph.setNodeAttribute(nodeKey, 'y', v)`. -/
def setNodeAttributeY : List (String × ℚ × ℚ) → String → ℚ → List (String × ℚ × ℚ)
  | [], _, _ => []
  | (k2, xy) :: rest, nodeKey, v =>
    if k2 = nodeKey then (k2, xy.1, v) :: rest
    else (k2, xy) :: setNodeAttributeY rest nodeKey v

/-- `PixiGraph.moveNode`: write the point into the dragged node's `x` and
`y` graph attributes, then restyle the node and its incident edges (reads
only). -/
def moveNode (st : ViewState) (nodeKey : String) (point : ℚ × ℚ) : ViewState :=
  { st with
    graphAttrs := setNodeAttributeY (setNodeAttributeX st.graphAttrs nodeKey point.1)
      nodeKey point.2 }

/-! ## Drag lifecycle (src/graph.ts enableNodeDragging / document handlers) -/

/-- The interaction state relevant to node dragging: which document-level
listeners are attached, whether viewport panning is paused, the pressed
entity keys, and the graph attributes the drag writes to. -/
structure DragState where
  moveListenerAttached : Bool
  upListenerAttached : Bool
  viewportPaused : Bool
  mousedownNodeKey : Option String
  mousedownEdgeKey : Option String
  graphAttrs : List (String × ℚ × ℚ)
deriving DecidableEq

/-- The state before any interaction: no listeners, panning active, nothing
pressed. -/
def initialDragState (g : List (String × ℚ × ℚ)) : DragState :=
  { moveListenerAttached := false, upListenerAttached := false,
    viewportPaused := false, mousedownNodeKey := none, mousedownEdgeKey := none,
    graphAttrs := g }

/-- The node `mousedown` handler: record the pressed node, then
`enableNodeDragging` pauses the viewport and attaches the document-level
`mousemove` listener and the once-only `mouseup` listener. -/
def onNodeMousedown (st : DragState) (nodeKey : String) : DragState :=
  { st with
    mousedownNodeKey := some nodeKey,
    viewportPaused := true,
    moveListenerAttached := true,
    upListenerAttached := true }

/-- The edge `mousedown` handler: records the pressed edge only. -/
def onEdgeMousedown (st : DragState) (edgeKey : String) : DragState :=
  { st with mousedownEdgeKey := some edgeKey }

/-- A pointer release anywhere on the document. `onDocumentMouseUp` runs
only while its once-only listener is attached; it resumes panning, removes
the `mousemove` listener, and clears the pressed keys. -/
def dispatchDocumentMouseUp (st : DragState) : DragState :=
  if st.upListenerAttached then
    { st with
      viewportPaused := false,
      moveListenerAttached := false,
      upListenerAttached := false,
      mousedownNodeKey := none,
      mousedownEdgeKey := none }
  else st

/-- A pointer move on the document. `onDocumentMouseMove` runs only while
its listener is attached; it moves the pressed node (writing its graph
attributes) when one is pressed. -/
def dispatchDocumentMouseMove (st : DragState) (worldPosition : ℚ × ℚ) : DragState :=
  if st.moveListenerAttached then
    match st.mousedownNodeKey with
    | some nodeKey =>
      { st with
        graphAttrs := setNodeAttributeY
          (setNodeAttributeX st.graphAttrs nodeKey worldPosition.1) nodeKey worldPosition.2 }
    | none => st
  else st

/-- The pointer interactions that can reach the drag state. -/
inductive UiEvent where
  | nodeMousedown (key : String)
  | edgeMousedown (key : String)
  | documentMouseMove (worldPosition : ℚ × ℚ)
  | documentMouseUp
deriving DecidableEq

/-- Dispatch of one interaction. -/
def stepEvent (st : DragState) : UiEvent → DragState
  | .nodeMousedown k => onNodeMousedown st k
  | .edgeMousedown k => onEdgeMousedown st k
  | .documentMouseMove p => dispatchDocumentMouseMove st p
  | .documentMouseUp => dispatchDocumentMouseUp st

/-- Dispatch of a sequence of interactions. -/
def runEvents (st : DragState) (events : List UiEvent) : DragState :=
  events.foldl stepEvent st

/-! ## Lemmas about the style resolver -/

theorem mergeStyle_value (t : Style) (v : StyleValue) :
    mergeStyle t (.value v) = .obj (fieldsOf t) := by
  rw [mergeStyle]

theorem mergeStyle_obj (t : Style) (sfs : List (String × Style)) :
    mergeStyle t (.obj sfs) =
      .obj (((fieldsOf t).map (fun p => (p.1, mergeEntry p.2 sfs p.1)))
        ++ sfs.filter (fun q => (lookupKey (fieldsOf t) q.1).isNone)) := by
  rw [mergeStyle]

theorem mergeEntry_none {sfs : List (String × Style)} {k : String} (tv : Style)
    (h : lookupKey sfs k = none) : mergeEntry tv sfs k = tv := by
  rw [mergeEntry, h]

theorem mergeEntry_value {sfs : List (String × Style)} {k : String} {v : StyleValue}
    (tv : Style) (h : lookupKey sfs k = some (.value v)) : mergeEntry tv sfs k = .value v := by
  rw [mergeEntry, h]

theorem mergeEntry_objSource {sfs : List (String × Style)} {k : String}
    {s2 : List (String × Style)} (tv : Style) (h : lookupKey sfs k = some (.obj s2)) :
    mergeEntry tv sfs k = mergeStyle tv (.obj s2) := by
  rw [mergeEntry, h]

theorem lookupKey_append {β : Type} (l1 l2 : List (String × β)) (k : String) :
    lookupKey (l1 ++ l2) k =
      match lookupKey l1 k with
      | some v => some v
      | none => lookupKey l2 k := by
  induction l1 with
  | nil => simp [lookupKey]
  | cons hd rest ih =>
    obtain ⟨k2, v⟩ := hd
    by_cases hk : k2 = k
    · subst hk
      simp [lookupKey]
    · simp [lookupKey, hk, ih]

theorem lookupKey_map_entry (tfs : List (String × Style)) (sfs : List (String × Style))
    (k : String) :
    lookupKey (tfs.map (fun p => (p.1, mergeEntry p.2 sfs p.1))) k =
      (lookupKey tfs k).map (fun tv => mergeEntry tv sfs k) := by
  induction tfs with
  | nil => simp [lookupKey]
  | cons hd rest ih =>
    obtain ⟨k2, tv⟩ := hd
    by_cases hk : k2 = k
    · subst hk
      simp [lookupKey]
    · simp [lookupKey, hk, ih]

theorem lookupKey_filter_isNone (tfs sfs : List (String × Style)) (k : String)
    (h : lookupKey tfs k = none) :
    lookupKey (sfs.filter (fun q => (lookupKey tfs q.1).isNone)) k = lookupKey sfs k := by
  induction sfs with
  | nil => simp
  | cons hd rest ih =>
    obtain ⟨k2, v⟩ := hd
    by_cases hk : k2 = k
    · subst hk
      simp [List.filter, h, lookupKey]
    · by_cases hkeep : (lookupKey tfs k2).isNone
      · simp [List.filter, hkeep, lookupKey, hk, ih]
      · simp [List.filter, hkeep, lookupKey, hk, ih]

theorem getLeaf_cons_some {fs : List (String × Style)} {k : String} {sv : Style}
    (rest : List String) (h : lookupKey fs k = some sv) :
    getLeaf (k :: rest) (.obj fs) = getLeaf rest sv := by
  simp [getLeaf, getPath, h]

theorem getLeaf_cons_none {fs : List (String × Style)} {k : String}
    (rest : List String) (h : lookupKey fs k = none) :
    getLeaf (k :: rest) (.obj fs) = none := by
  simp [getLeaf, getPath, h]

/-- Rightmost layer wins: a leaf of the merge source at a nonempty path
survives the deep merge unchanged, whatever the target. -/
theorem getLeaf_mergeStyle_source :
    ∀ (p : List String) (t s : Style) (v : StyleValue),
      p ≠ [] → getLeaf p s = some v → getLeaf p (mergeStyle t s) = some v := by
  intro p
  induction p with
  | nil => exact fun t s v hne _ => absurd rfl hne
  | cons k rest ih =>
    intro t s v _ hleaf
    cases s with
    | value w => simp [getLeaf, getPath] at hleaf
    | obj sfs =>
      rw [mergeStyle_obj]
      cases hsv : lookupKey sfs k with
      | none => rw [getLeaf_cons_none rest hsv] at hleaf; exact absurd hleaf (by simp)
      | some sv =>
        rw [getLeaf_cons_some rest hsv] at hleaf
        cases htv : lookupKey (fieldsOf t) k with
        | some tv =>
          have hmap : lookupKey ((fieldsOf t).map (fun p => (p.1, mergeEntry p.2 sfs p.1))) k =
              some (mergeEntry tv sfs k) := by
            rw [lookupKey_map_entry, htv]
            rfl
          have hm : lookupKey (((fieldsOf t).map (fun p => (p.1, mergeEntry p.2 sfs p.1)))
              ++ sfs.filter (fun q => (lookupKey (fieldsOf t) q.1).isNone)) k =
              some (mergeEntry tv sfs k) := by
            rw [lookupKey_append, hmap]
          rw [getLeaf_cons_some rest hm]
          cases sv with
          | value w =>
            rw [mergeEntry_value tv hsv]
            cases rest with
            | nil => exact hleaf
            | cons k2 r2 => simp [getLeaf, getPath] at hleaf
          | obj s2 =>
            rw [mergeEntry_objSource tv hsv]
            have hrest : rest ≠ [] := by
              intro hr
              subst hr
              simp [getLeaf, getPath] at hleaf
            exact ih tv (.obj s2) v hrest hleaf
        | none =>
          have hmap : lookupKey ((fieldsOf t).map (fun p => (p.1, mergeEntry p.2 sfs p.1))) k =
              none := by
            rw [lookupKey_map_entry, htv]
            rfl
          have hm : lookupKey (((fieldsOf t).map (fun p => (p.1, mergeEntry p.2 sfs p.1)))
              ++ sfs.filter (fun q => (lookupKey (fieldsOf t) q.1).isNone)) k = some sv := by
            rw [lookupKey_append, hmap, lookupKey_filter_isNone _ _ _ htv, hsv]
          rw [getLeaf_cons_some rest hm]
          exact hleaf

/-- Lower layers survive: a leaf of the merge target at a nonempty path the
source leaves untouched survives the deep merge unchanged. -/
theorem getLeaf_mergeStyle_target :
    ∀ (p : List String) (t s : Style) (v : StyleValue),
      p ≠ [] → getLeaf p t = some v → untouchedAt p s = true →
      getLeaf p (mergeStyle t s) = some v := by
  intro p
  induction p with
  | nil => exact fun t s v hne _ _ => absurd rfl hne
  | cons k rest ih =>
    intro t s v _ hleaf hu
    cases t with
    | value w => simp [getLeaf, getPath] at hleaf
    | obj tfs =>
      cases htv : lookupKey tfs k with
      | none => rw [getLeaf_cons_none rest htv] at hleaf; exact absurd hleaf (by simp)
      | some tv =>
        rw [getLeaf_cons_some rest htv] at hleaf
        cases s with
        | value w =>
          rw [mergeStyle_value]
          show getLeaf (k :: rest) (Style.obj tfs) = some v
          rw [getLeaf_cons_some rest htv]
          exact hleaf
        | obj sfs =>
          rw [mergeStyle_obj]
          have hmap : lookupKey ((fieldsOf (Style.obj tfs)).map
              (fun p => (p.1, mergeEntry p.2 sfs p.1))) k = some (mergeEntry tv sfs k) := by
            rw [lookupKey_map_entry]
            show (lookupKey tfs k).map _ = _
            rw [htv]
            rfl
          have hm : lookupKey (((fieldsOf (Style.obj tfs)).map
              (fun p => (p.1, mergeEntry p.2 sfs p.1)))
              ++ sfs.filter (fun q => (lookupKey (fieldsOf (Style.obj tfs)) q.1).isNone)) k =
              some (mergeEntry tv sfs k) := by
            rw [lookupKey_append, hmap]
          rw [getLeaf_cons_some rest hm]
          cases hsv : lookupKey sfs k with
          | none => rw [mergeEntry_none tv hsv]; exact hleaf
          | some sv =>
            cases sv with
            | value w => simp [untouchedAt, hsv] at hu
            | obj s2 =>
              rw [mergeEntry_objSource tv hsv]
              simp only [untouchedAt, hsv, Bool.and_eq_true, Bool.not_eq_true'] at hu
              have hrest : rest ≠ [] := by
                intro hr
                subst hr
                simp at hu
              exact ih tv (.obj s2) v hrest hleaf hu.2

/-- Claim C1: for style definitions D1 (built-in default), D2 (user style),
D3 (hover style) and any entity attributes, `resolveStyleDefinitions`
resolves each definition (invoking functions with the attributes, recursing
into partial structures) and deep-merges left to right, so at every leaf
path a value present in resolved D3 overrides D2, which overrides D1; the
D3 layer is included only when the entity is hovered. -/
theorem spec_c1 {A : Type} (d1 d2 d3 : StyleDef A) (attributes : A)
    (p : List String) (v : StyleValue) (hp : p ≠ []) :
    (getLeaf p (resolveStyleDefinition d3 attributes) = some v →
      getLeaf p (resolveStyleDefinitions (styleLayers d1 d2 d3 true) attributes) = some v) ∧
    (untouchedAt p (resolveStyleDefinition d3 attributes) = true →
      getLeaf p (resolveStyleDefinition d2 attributes) = some v →
      getLeaf p (resolveStyleDefinitions (styleLayers d1 d2 d3 true) attributes) = some v) ∧
    (untouchedAt p (resolveStyleDefinition d3 attributes) = true →
      untouchedAt p (resolveStyleDefinition d2 attributes) = true →
      getLeaf p (resolveStyleDefinition d1 attributes) = some v →
      getLeaf p (resolveStyleDefinitions (styleLayers d1 d2 d3 true) attributes) = some v) ∧
    resolveStyleDefinitions (styleLayers d1 d2 d3 false) attributes =
      resolveStyleDefinitions [some d1, some d2] attributes := by
  have hunfold : resolveStyleDefinitions (styleLayers d1 d2 d3 true) attributes =
      mergeStyle (mergeStyle (mergeStyle (Style.obj []) (resolveStyleDefinition d1 attributes))
        (resolveStyleDefinition d2 attributes)) (resolveStyleDefinition d3 attributes) := rfl
  refine ⟨?_, ?_, ?_, rfl⟩
  · intro h3
    rw [hunfold]
    exact getLeaf_mergeStyle_source p _ _ v hp h3
  · intro hu3 h2
    rw [hunfold]
    refine getLeaf_mergeStyle_target p _ _ v hp ?_ hu3
    exact getLeaf_mergeStyle_source p _ _ v hp h2
  · intro hu3 hu2 h1
    rw [hunfold]
    refine getLeaf_mergeStyle_target p _ _ v hp ?_ hu3
    refine getLeaf_mergeStyle_target p _ _ v hp ?_ hu2
    exact getLeaf_mergeStyle_source p _ _ v hp h1

/-- Concrete layers instantiating the C1 theorem. -/
def c1DefaultDef : StyleDef Unit :=
  .obj [("size", .lit (.num 1)), ("color", .lit (.str "black"))]

/-- Concrete user layer instantiating the C1 theorem. -/
def c1UserDef : StyleDef Unit := .obj [("size", .lit (.num 2))]

/-- Concrete hover layer instantiating the C1 theorem (an
attribute-dependent function). -/
def c1HoverDef : StyleDef Unit := .obj [("size", .func (fun _ => .value (.num 3)))]

/-- Witness for C1 at a concrete input: the path is nonempty and the
hovered merge takes the hover layer's value at "size". -/
theorem spec_c1_witness :
    (["size"] ≠ ([] : List String)) ∧
    getLeaf ["size"]
      (resolveStyleDefinitions (styleLayers c1DefaultDef c1UserDef c1HoverDef true) ()) =
      some (.num 3) :=
  ⟨by decide,
    (spec_c1 c1DefaultDef c1UserDef c1HoverDef () ["size"] (.num 3) (by decide)).1 rfl⟩

/-! ## Texture cache theorems -/

theorem lookupKey_snoc_self (textures : List (String × Texture)) (key : String) (t : Texture)
    (h : lookupKey textures key = none) : lookupKey (textures ++ [(key, t)]) key = some t := by
  rw [lookupKey_append, h]
  simp [lookupKey]

theorem eraseKey_snoc_self (textures : List (String × Texture)) (key : String) (t : Texture)
    (h : lookupKey textures key = none) : eraseKey (textures ++ [(key, t)]) key = textures := by
  induction textures with
  | nil => simp [eraseKey]
  | cons hd rest ih =>
    obtain ⟨k2, t2⟩ := hd
    simp only [lookupKey] at h
    by_cases hk : k2 = key
    · rw [if_pos hk] at h
      exact absurd h (by simp)
    · rw [if_neg hk] at h
      simp [eraseKey, hk, ih h]

/-- Claim C2: on a cache without the key, `get` invokes the builder; a
second `get` does not invoke it and returns the stored texture; `delete`
followed by `get` invokes the builder again; and `delete` of an absent key
is a no-op. -/
theorem spec_c2 (textures : List (String × Texture)) (key : String)
    (defaultCallback : Unit → SceneFragment)
    (h : lookupKey textures key = none) :
    (cacheGet textures key defaultCallback).invoked = true ∧
    (cacheGet (cacheGet textures key defaultCallback).textures key defaultCallback).invoked
      = false ∧
    (cacheGet (cacheGet textures key defaultCallback).textures key defaultCallback).texture
      = (cacheGet textures key defaultCallback).texture ∧
    (cacheGet (cacheDelete (cacheGet textures key defaultCallback).textures key) key
      defaultCallback).invoked = true ∧
    cacheDelete textures key = textures := by
  have hget : cacheGet textures key defaultCallback =
      { texture := generateTexture (defaultCallback ()),
        textures := textures ++ [(key, generateTexture (defaultCallback ()))],
        invoked := true } := by
    simp [cacheGet, h]
  have hlook2 := lookupKey_snoc_self textures key (generateTexture (defaultCallback ())) h
  refine ⟨by rw [hget], ?_, ?_, ?_, by simp [cacheDelete, h]⟩
  · rw [hget]
    simp [cacheGet, hlook2]
  · rw [hget]
    simp [cacheGet, hlook2]
  · rw [hget]
    have hdel : cacheDelete (textures ++ [(key, generateTexture (defaultCallback ()))]) key
        = textures := by
      simp only [cacheDelete, hlook2]
      exact eraseKey_snoc_self textures key _ h
    simp only [hdel]
    simp [cacheGet, h]

/-- Witness for C2 at a concrete input: empty cache, one key, a unit-box
builder. -/
theorem spec_c2_witness :
    lookupKey ([] : List (String × Texture)) "NODE_CIRCLE::15" = none ∧
    (cacheGet [] "NODE_CIRCLE::15" (fun _ => ⟨⟨0, 0, 1, 1⟩⟩)).invoked = true :=
  ⟨rfl, (spec_c2 [] "NODE_CIRCLE::15" (fun _ => ⟨⟨0, 0, 1, 1⟩⟩) rfl).1⟩

/-! ## Rounded texture region (C8) -/

/-- Counterexample for claim C8: the region measured at origin x = 1/2 with
width 1 is not contained in its rounded region, whose right edge is
floor(1/2) + ceil(1) = 1 < 1/2 + 1. -/
theorem spec_c8_cex :
    ¬ containsBounds (roundedRegion ⟨1/2, 0, 1, 1⟩) ⟨1/2, 0, 1, 1⟩ := by
  intro hc
  have h3 := hc.2.2.1
  norm_num [roundedRegion] at h3

/-- Claim C8 as amended: for every measured box, the rounded region never
clips the top or left edge (floored origin) and its size is at least the
measured size (ceiled size); when the origin is integral it additionally
contains the measured box entirely, but in general the right/bottom edge
can clip. -/
theorem spec_c8_amended (region : LocalBounds) :
    (roundedRegion region).x ≤ region.x ∧
    (roundedRegion region).y ≤ region.y ∧
    region.width ≤ (roundedRegion region).width ∧
    region.height ≤ (roundedRegion region).height ∧
    ((⌊region.x⌋ : ℚ) = region.x → (⌊region.y⌋ : ℚ) = region.y →
      containsBounds (roundedRegion region) region) := by
  have hfx : ((⌊region.x⌋ : ℤ) : ℚ) ≤ region.x := Int.floor_le region.x
  have hfy : ((⌊region.y⌋ : ℤ) : ℚ) ≤ region.y := Int.floor_le region.y
  have hcw : region.width ≤ ((⌈region.width⌉ : ℤ) : ℚ) := Int.le_ceil region.width
  have hch : region.height ≤ ((⌈region.height⌉ : ℤ) : ℚ) := Int.le_ceil region.height
  refine ⟨hfx, hfy, hcw, hch, ?_⟩
  intro hx hy
  refine ⟨hfx, hfy, ?_, ?_⟩
  · show region.x + region.width ≤ (⌊region.x⌋ : ℚ) + (⌈region.width⌉ : ℚ)
    rw [hx]
    linarith
  · show region.y + region.height ≤ (⌊region.y⌋ : ℚ) + (⌈region.height⌉ : ℚ)
    rw [hy]
    linarith

/-- Witness for the amended C8: the unconditional edge/size clauses at a
non-integral origin where clipping occurs, and the containment clause at a
concrete integral origin. -/
theorem spec_c8_witness :
    ((roundedRegion ⟨1/2, 0, 1, 1⟩).x ≤ (1 : ℚ) / 2 ∧
      (1 : ℚ) ≤ (roundedRegion ⟨1/2, 0, 1, 1⟩).width) ∧
    ((⌊(1 : ℚ)⌋ : ℚ) = 1) ∧ ((⌊(2 : ℚ)⌋ : ℚ) = 2) ∧
    containsBounds (roundedRegion ⟨1, 2, 3/2, 5/2⟩) ⟨1, 2, 3/2, 5/2⟩ :=
  ⟨⟨(spec_c8_amended ⟨1/2, 0, 1, 1⟩).1, (spec_c8_amended ⟨1/2, 0, 1, 1⟩).2.2.1⟩,
    by norm_num, by norm_num,
    (spec_c8_amended ⟨1, 2, 3/2, 5/2⟩).2.2.2.2 (by norm_num) (by norm_num)⟩

/-! ## resetView on an empty graph (C9) -/

/-- Claim C9: with no nodes, the bounding-box minima and maxima are taken
over empty lists, and the computed viewport center is the non-finite point
(Infinity, Infinity); there is no guard, error, or no-op. -/
theorem spec_c9 :
    resetViewCenter [] [] = (JSNum.posInf, JSNum.posInf) ∧
    (resetViewCenter [] []).1.isFinite = false ∧
    (resetViewCenter [] []).2.isFinite = false :=
  ⟨rfl, rfl, rfl⟩

/-! ## Level of detail (C3) -/

/-- Claim C3: the LOD index is the smallest i with
zoom <= [0.1, 0.2, 0.4, Infinity][i] (0.05 gives 0, 0.5 gives 3); the
border and edge line need LOD at least 1, the icon at least 2, the label at
least 3; the base shape is not LOD-gated; and a sub-element already hidden
by culling stays hidden at every LOD. -/
theorem spec_c3 :
    lodZoomStep (1/20) = 0 ∧
    lodZoomStep (1/2) = 3 ∧
    (∀ zoom : ℚ, lodZoomStep zoom = lodSpecIndex zoom) ∧
    (∀ (v : NodeGfxVisibility) (zoomStep : Int),
      (updateNodeVisibility v zoomStep).circleVisible = v.circleVisible ∧
      ((updateNodeVisibility v zoomStep).borderVisible = true ↔
        v.borderVisible = true ∧ 1 ≤ zoomStep) ∧
      ((updateNodeVisibility v zoomStep).iconVisible = true ↔
        v.iconVisible = true ∧ 2 ≤ zoomStep)) ∧
    (∀ (v : NodeLabelVisibility) (zoomStep : Int),
      ((updateNodeLabelVisibility v zoomStep).backgroundVisible = true ↔
        v.backgroundVisible = true ∧ 3 ≤ zoomStep) ∧
      ((updateNodeLabelVisibility v zoomStep).textVisible = true ↔
        v.textVisible = true ∧ 3 ≤ zoomStep)) ∧
    (∀ (lineVisible : Bool) (zoomStep : Int),
      (updateEdgeVisibility lineVisible zoomStep = true ↔
        lineVisible = true ∧ 1 ≤ zoomStep)) := by
  refine ⟨by norm_num [lodZoomStep, zoomSteps, jsFindIndex, jsLe],
    by norm_num [lodZoomStep, zoomSteps, jsFindIndex, jsLe], ?_, ?_, ?_, ?_⟩
  · intro zoom
    by_cases h1 : zoom ≤ 1/10 <;> by_cases h2 : zoom ≤ 2/10 <;> by_cases h3 : zoom ≤ 4/10 <;>
      simp [lodZoomStep, lodSpecIndex, zoomSteps, jsFindIndex, jsLe, h1, h2, h3]
  · intro v zoomStep
    refine ⟨rfl, ?_, ?_⟩ <;>
      simp [updateNodeVisibility, Bool.and_eq_true, decide_eq_true_eq]
  · intro v zoomStep
    constructor <;> simp [updateNodeLabelVisibility, Bool.and_eq_true, decide_eq_true_eq]
  · intro lineVisible zoomStep
    simp [updateEdgeVisibility, Bool.and_eq_true, decide_eq_true_eq]

/-! ## Edge geometry (C7) -/

/-- Claim C7: `updatePosition` sets the edge element to the midpoint of the
endpoints, rotation `-atan2(dx, dy)` and length `hypot(dx, dy)`; for source
(0, 0) and target (10, 0) the rotation is exactly -(pi/2) and the length
exactly 10. -/
theorem spec_c7 (sourceNodePosition targetNodePosition : ℝ × ℝ) :
    (edgeUpdatePosition sourceNodePosition targetNodePosition).x =
      (sourceNodePosition.1 + targetNodePosition.1) / 2 ∧
    (edgeUpdatePosition sourceNodePosition targetNodePosition).y =
      (sourceNodePosition.2 + targetNodePosition.2) / 2 ∧
    (edgeUpdatePosition sourceNodePosition targetNodePosition).height =
      Real.sqrt ((targetNodePosition.1 - sourceNodePosition.1) ^ 2 +
        (targetNodePosition.2 - sourceNodePosition.2) ^ 2) ∧
    (edgeUpdatePosition (0, 0) (10, 0)).rotation = -(Real.pi / 2) ∧
    (edgeUpdatePosition (0, 0) (10, 0)).height = 10 := by
  refine ⟨rfl, rfl, rfl, ?_, ?_⟩
  · show -(atan2 ((10 : ℝ) - 0) ((0 : ℝ) - 0)) = -(Real.pi / 2)
    norm_num [atan2]
  · show hypot ((10 : ℝ) - 0) ((0 : ℝ) - 0) = 10
    rw [hypot]
    norm_num
    rw [show (100 : ℝ) = 10 ^ 2 by norm_num]
    exact Real.sqrt_sq (by norm_num)

/-! ## Layer restacking lemmas -/

theorem getChildIndex_append {α : Type} [DecidableEq α] (l1 l2 : List α) (e : α)
    (h : e ∉ l1) : getChildIndex (l1 ++ e :: l2) e = l1.length := by
  induction l1 with
  | nil => simp [getChildIndex]
  | cons x rest ih =>
    have hx : x ≠ e := fun hxe => h (hxe ▸ List.mem_cons_self x rest)
    have hrest : e ∉ rest := fun hm => h (List.mem_cons_of_mem x hm)
    simp [getChildIndex, hx, ih hrest]

theorem removeChildAt_append {α : Type} (l1 l2 : List α) (x : α) :
    removeChildAt (l1 ++ x :: l2) l1.length = l1 ++ l2 := by
  induction l1 with
  | nil => simp [removeChildAt]
  | cons y rest ih => simp [removeChildAt, ih]

theorem mem_of_mem_removeChildAt {α : Type} (l : List α) (i : Nat) (e : α)
    (h : e ∈ removeChildAt l i) : e ∈ l := by
  induction l generalizing i with
  | nil => simp [removeChildAt] at h
  | cons x rest ih =>
    cases i with
    | zero => exact List.mem_cons_of_mem x h
    | succ n =>
      simp only [removeChildAt, List.mem_cons] at h
      rcases h with h | h
      · exact h ▸ List.mem_cons_self x rest
      · exact List.mem_cons_of_mem x (ih n h)

theorem length_removeChildAt {α : Type} (l : List α) (i : Nat) (h : i < l.length) :
    (removeChildAt l i).length = l.length - 1 := by
  induction l generalizing i with
  | nil => simp at h
  | cons x rest ih =>
    cases i with
    | zero => simp [removeChildAt]
    | succ n =>
      simp only [List.length_cons, Nat.succ_lt_succ_iff] at h
      simp only [removeChildAt, List.length_cons, ih n h]
      omega

/-! ## Read-only graph collaborator (C4) -/

/-- A one-node view state shared by several concrete instantiations
below. -/
def c4State : ViewState :=
  { nodeLayer := [.nodeGfx "a"],
    nodeLabelLayer := [.nodeLabelGfx "a"],
    frontNodeLayer := [.nodePlaceholderGfx "a"],
    frontNodeLabelLayer := [.nodeLabelPlaceholderGfx "a"],
    hoveredNodes := [],
    graphAttrs := [("a", 0, 0)] }

/-- Counterexample for claim C4: dragging writes the graph. `moveNode`
(the document mousemove handler during a drag) changes the externally
owned graph's node attributes. -/
theorem spec_c4_cex : (moveNode c4State "a" (1, 2)).graphAttrs ≠ c4State.graphAttrs := by
  intro h
  simp [moveNode, c4State, setNodeAttributeX, setNodeAttributeY] at h

theorem lookupKey_setNodeAttributeX_other (g : List (String × ℚ × ℚ)) (k k2 : String) (v : ℚ)
    (h : k2 ≠ k) : lookupKey (setNodeAttributeX g k v) k2 = lookupKey g k2 := by
  induction g with
  | nil => rfl
  | cons hd rest ih =>
    obtain ⟨k3, xy⟩ := hd
    by_cases h3 : k3 = k
    · subst h3
      have h32 : ¬ k3 = k2 := fun he => h he.symm
      simp [setNodeAttributeX, lookupKey, h32]
    · simp only [setNodeAttributeX, if_neg h3, lookupKey]
      by_cases h32 : k3 = k2 <;> simp [h32, ih]

theorem lookupKey_setNodeAttributeY_other (g : List (String × ℚ × ℚ)) (k k2 : String) (v : ℚ)
    (h : k2 ≠ k) : lookupKey (setNodeAttributeY g k v) k2 = lookupKey g k2 := by
  induction g with
  | nil => rfl
  | cons hd rest ih =>
    obtain ⟨k3, xy⟩ := hd
    by_cases h3 : k3 = k
    · subst h3
      have h32 : ¬ k3 = k2 := fun he => h he.symm
      simp [setNodeAttributeY, lookupKey, h32]
    · simp only [setNodeAttributeY, if_neg h3, lookupKey]
      by_cases h32 : k3 = k2 <;> simp [h32, ih]

theorem lookupKey_setNodeAttributeX_self (g : List (String × ℚ × ℚ)) (k : String) (v : ℚ)
    (q : ℚ × ℚ) (h : lookupKey g k = some q) :
    lookupKey (setNodeAttributeX g k v) k = some (v, q.2) := by
  induction g with
  | nil => simp [lookupKey] at h
  | cons hd rest ih =>
    obtain ⟨k3, xy⟩ := hd
    by_cases h3 : k3 = k
    · subst h3
      rw [lookupKey, if_pos rfl] at h
      cases h
      simp [setNodeAttributeX, lookupKey]
    · rw [lookupKey, if_neg h3] at h
      simp [setNodeAttributeX, lookupKey, h3, ih h]

theorem lookupKey_setNodeAttributeY_self (g : List (String × ℚ × ℚ)) (k : String) (v : ℚ)
    (q : ℚ × ℚ) (h : lookupKey g k = some q) :
    lookupKey (setNodeAttributeY g k v) k = some (q.1, v) := by
  induction g with
  | nil => simp [lookupKey] at h
  | cons hd rest ih =>
    obtain ⟨k3, xy⟩ := hd
    by_cases h3 : k3 = k
    · subst h3
      rw [lookupKey, if_pos rfl] at h
      cases h
      simp [setNodeAttributeY, lookupKey]
    · rw [lookupKey, if_neg h3] at h
      simp [setNodeAttributeY, lookupKey, h3, ih h]

/-- Claim C4 as amended: hover and unhover only read the graph; the single
writer is `moveNode` during a drag, which rewrites exactly the dragged
node's `x` and `y` attributes and leaves every other node untouched. -/
theorem spec_c4_amended (st : ViewState) (nodeKey otherKey : String) (point : ℚ × ℚ)
    (q : ℚ × ℚ) (hne : otherKey ≠ nodeKey)
    (hq : lookupKey st.graphAttrs nodeKey = some q) :
    (hoverNode st nodeKey).graphAttrs = st.graphAttrs ∧
    (unhoverNode st nodeKey).graphAttrs = st.graphAttrs ∧
    lookupKey (moveNode st nodeKey point).graphAttrs otherKey =
      lookupKey st.graphAttrs otherKey ∧
    lookupKey (moveNode st nodeKey point).graphAttrs nodeKey = some point := by
  refine ⟨?_, ?_, ?_, ?_⟩
  · simp only [hoverNode]
    split <;> rfl
  · simp only [unhoverNode]
    split <;> rfl
  · show lookupKey (setNodeAttributeY (setNodeAttributeX st.graphAttrs nodeKey point.1)
      nodeKey point.2) otherKey = _
    rw [lookupKey_setNodeAttributeY_other _ _ _ _ hne,
      lookupKey_setNodeAttributeX_other _ _ _ _ hne]
  · show lookupKey (setNodeAttributeY (setNodeAttributeX st.graphAttrs nodeKey point.1)
      nodeKey point.2) nodeKey = some point
    have hx := lookupKey_setNodeAttributeX_self st.graphAttrs nodeKey point.1 q hq
    have hy := lookupKey_setNodeAttributeY_self _ nodeKey point.2 _ hx
    rw [hy]

/-- Witness for the amended C4 at a concrete input. -/
theorem spec_c4_amended_witness :
    ("b" ≠ "a") ∧ (lookupKey c4State.graphAttrs "a" = some (0, 0)) ∧
    lookupKey (moveNode c4State "a" (1, 2)).graphAttrs "a" = some (1, 2) :=
  ⟨by decide, rfl, (spec_c4_amended c4State "a" "b" (1, 2) (0, 0) (by decide) rfl).2.2.2⟩

/-! ## Hover idempotence (C10) -/

/-- Claim C10: `hoverNode` returns immediately when the node is already
hovered, and `unhoverNode` when it is not, leaving the whole view state
unchanged. -/
theorem spec_c10 (st : ViewState) (nodeKey : String) :
    (nodeKey ∈ st.hoveredNodes → hoverNode st nodeKey = st) ∧
    (nodeKey ∉ st.hoveredNodes → unhoverNode st nodeKey = st) := by
  constructor
  · intro h
    simp [hoverNode, h]
  · intro h
    simp [unhoverNode, h]

/-- A view state with node "a" hovered, for the C10 witness. -/
def c10State : ViewState :=
  { nodeLayer := [.nodePlaceholderGfx "a"],
    nodeLabelLayer := [.nodeLabelPlaceholderGfx "a"],
    frontNodeLayer := [.nodeGfx "a"],
    frontNodeLabelLayer := [.nodeLabelGfx "a"],
    hoveredNodes := ["a"],
    graphAttrs := [("a", 0, 0)] }

/-- Witness for C10 at concrete inputs: a repeated hover of the hovered
node "a" and a repeated unhover of the never-hovered node "b" are both
no-ops. -/
theorem spec_c10_witness :
    hoverNode c10State "a" = c10State ∧ unhoverNode c10State "b" = c10State :=
  ⟨(spec_c10 c10State "a").1 (by decide), (spec_c10 c10State "b").2 (by decide)⟩

/-! ## Hover restacking (C5) -/

/-- A two-node view state: node "a" sits at index 0, node "b" at index 1
in every layer. -/
def c5State : ViewState :=
  { nodeLayer := [.nodeGfx "a", .nodeGfx "b"],
    nodeLabelLayer := [.nodeLabelGfx "a", .nodeLabelGfx "b"],
    frontNodeLayer := [.nodePlaceholderGfx "a", .nodePlaceholderGfx "b"],
    frontNodeLabelLayer := [.nodeLabelPlaceholderGfx "a", .nodeLabelPlaceholderGfx "b"],
    hoveredNodes := [],
    graphAttrs := [("a", 0, 0), ("b", 1, 1)] }

/-- Counterexample for claim C5: hovering and un-hovering node "a" (which
occupied index 0 of the node layer while "b" occupied index 1) leaves "a"
at index 1, not at its original index 0 — the vacated slot is not
preserved, the element is re-appended at the end. -/
theorem spec_c5_cex :
    getChildIndex c5State.nodeLayer (Elem.nodeGfx "a") = 0 ∧
    getChildIndex (unhoverNode (hoverNode c5State "a") "a").nodeLayer (Elem.nodeGfx "a") = 1 ∧
    getChildIndex (unhoverNode (hoverNode c5State "a") "a").nodeLayer (Elem.nodeGfx "a") ≠
      getChildIndex c5State.nodeLayer (Elem.nodeGfx "a") := by
  refine ⟨rfl, ?_, ?_⟩ <;>
    simp [c5State, hoverNode, unhoverNode, getChildIndex, removeChildAt]

/-- Claim C5 as amended: hovering then un-hovering a non-hovered node
returns its element (and its label) to the base layers with the other
children's relative order intact, but appended at the end rather than at
the vacated index; the hovered-flag set is restored exactly. The original
index is recovered only when the node was already the last child. -/
theorem spec_c5_amended (st : ViewState) (nodeKey : String) (n1 n2 m1 m2 : List Elem)
    (h1 : st.nodeLayer = n1 ++ Elem.nodeGfx nodeKey :: n2)
    (h2 : Elem.nodeGfx nodeKey ∉ n1)
    (h3 : st.nodeLabelLayer = m1 ++ Elem.nodeLabelGfx nodeKey :: m2)
    (hm1 : m1.length = n1.length)
    (hm2 : m2.length = n2.length)
    (h4 : Elem.nodeGfx nodeKey ∉ st.frontNodeLayer)
    (h5 : st.frontNodeLayer.length = n1.length + n2.length + 1)
    (h6 : nodeKey ∉ st.hoveredNodes) :
    (unhoverNode (hoverNode st nodeKey) nodeKey).nodeLayer =
      (n1 ++ n2) ++ [Elem.nodeGfx nodeKey] ∧
    (unhoverNode (hoverNode st nodeKey) nodeKey).nodeLabelLayer =
      (m1 ++ m2) ++ [Elem.nodeLabelGfx nodeKey] ∧
    (unhoverNode (hoverNode st nodeKey) nodeKey).hoveredNodes = st.hoveredNodes := by
  have hidx : getChildIndex st.nodeLayer (Elem.nodeGfx nodeKey) = n1.length := by
    rw [h1]
    exact getChildIndex_append n1 n2 _ h2
  have hnode1 : removeChildAt st.nodeLayer n1.length = n1 ++ n2 := by
    rw [h1]
    exact removeChildAt_append n1 n2 _
  have hlabel1 : removeChildAt st.nodeLabelLayer n1.length = m1 ++ m2 := by
    rw [h3, ← hm1]
    exact removeChildAt_append m1 m2 _
  have hhover : hoverNode st nodeKey =
      { nodeLayer := (n1 ++ n2) ++ [Elem.nodePlaceholderGfx nodeKey],
        nodeLabelLayer := (m1 ++ m2) ++ [Elem.nodeLabelPlaceholderGfx nodeKey],
        frontNodeLayer := removeChildAt st.frontNodeLayer n1.length ++ [Elem.nodeGfx nodeKey],
        frontNodeLabelLayer :=
          removeChildAt st.frontNodeLabelLayer n1.length ++ [Elem.nodeLabelGfx nodeKey],
        hoveredNodes := nodeKey :: st.hoveredNodes,
        graphAttrs := st.graphAttrs } := by
    rw [hoverNode, if_neg h6, hidx]
    simp only [hnode1, hlabel1]
  have hfmem : Elem.nodeGfx nodeKey ∉ removeChildAt st.frontNodeLayer n1.length :=
    fun hm => h4 (mem_of_mem_removeChildAt _ _ _ hm)
  have hflen : (removeChildAt st.frontNodeLayer n1.length).length = n1.length + n2.length := by
    rw [length_removeChildAt _ _ (by omega), h5]
    omega
  have hidx2 : getChildIndex (removeChildAt st.frontNodeLayer n1.length
      ++ [Elem.nodeGfx nodeKey]) (Elem.nodeGfx nodeKey) = n1.length + n2.length := by
    rw [show removeChildAt st.frontNodeLayer n1.length ++ [Elem.nodeGfx nodeKey] =
      removeChildAt st.frontNodeLayer n1.length ++ Elem.nodeGfx nodeKey :: [] from rfl,
      getChildIndex_append _ _ _ hfmem, hflen]
  have hnode2 : removeChildAt ((n1 ++ n2) ++ [Elem.nodePlaceholderGfx nodeKey])
      (n1.length + n2.length) = n1 ++ n2 := by
    have := removeChildAt_append (n1 ++ n2) [] (Elem.nodePlaceholderGfx nodeKey)
    simpa using this
  have hlabel2 : removeChildAt ((m1 ++ m2) ++ [Elem.nodeLabelPlaceholderGfx nodeKey])
      (n1.length + n2.length) = m1 ++ m2 := by
    have := removeChildAt_append (m1 ++ m2) [] (Elem.nodeLabelPlaceholderGfx nodeKey)
    rw [show (m1 ++ m2).length = n1.length + n2.length by
      rw [List.length_append, hm1, hm2]] at this
    simpa using this
  rw [hhover, unhoverNode]
  rw [if_pos (List.mem_cons_self nodeKey st.hoveredNodes)]
  refine ⟨?_, ?_, ?_⟩
  · simp only [hidx2, hnode2]
  · simp only [hidx2, hlabel2]
  · simp only [hidx2]
    exact List.erase_cons_head nodeKey st.hoveredNodes

/-- Witness for the amended C5 at a concrete input (the one-node state,
where the node is also the last child and so its index is restored). -/
theorem spec_c5_amended_witness :
    (c4State.nodeLayer = [] ++ Elem.nodeGfx "a" :: []) ∧
    (unhoverNode (hoverNode c4State "a") "a").nodeLayer = ([] ++ []) ++ [Elem.nodeGfx "a"] :=
  ⟨rfl,
    (spec_c5_amended c4State "a" [] [] [] [] rfl (by decide) rfl rfl rfl (by decide) rfl
      (by decide)).1⟩

/-! ## Drag lifecycle (C6) -/

theorem dragListenerInvStep (st : DragState) (event : UiEvent)
    (h : st.mousedownNodeKey = none → st.moveListenerAttached = false) :
    (stepEvent st event).mousedownNodeKey = none →
    (stepEvent st event).moveListenerAttached = false := by
  cases event with
  | nodeMousedown k => simp [stepEvent, onNodeMousedown]
  | edgeMousedown k =>
    intro hk
    simp only [stepEvent, onEdgeMousedown] at hk ⊢
    exact h hk
  | documentMouseMove p =>
    intro hk
    simp only [stepEvent, dispatchDocumentMouseMove] at hk ⊢
    by_cases hl : st.moveListenerAttached
    · rw [if_pos hl] at hk ⊢
      cases hkey : st.mousedownNodeKey with
      | some k => simp only [hkey] at hk ⊢; exact absurd hk (by simp)
      | none => simp only [hkey] at hk ⊢; exact h hkey
    · rw [if_neg hl] at hk ⊢
      exact h hk
  | documentMouseUp =>
    intro hk
    simp only [stepEvent, dispatchDocumentMouseUp] at hk ⊢
    by_cases hl : st.upListenerAttached
    · rw [if_pos hl] at hk ⊢
    · rw [if_neg hl] at hk ⊢
      exact h hk

theorem dragListenerInvRun (events : List UiEvent) :
    ∀ (st : DragState), (st.mousedownNodeKey = none → st.moveListenerAttached = false) →
      (runEvents st events).mousedownNodeKey = none →
      (runEvents st events).moveListenerAttached = false := by
  induction events with
  | nil => exact fun st h => h
  | cons event rest ih =>
    intro st h
    exact ih (stepEvent st event) (dragListenerInvStep st event h)

/-- Claim C6: once a node press starts a drag, a pointer release anywhere
ends it — the document mousemove listener is removed, the drag target is
cleared, panning resumes, and a subsequent pointer move leaves the whole
state (including the node's position attributes) unchanged. Moreover, from
the initial state, no event sequence can reach a state with the document
mousemove listener attached while no node drag is active. -/
theorem spec_c6 :
    (∀ (st : DragState) (nodeKey : String) (worldPosition : ℚ × ℚ),
      (dispatchDocumentMouseUp (onNodeMousedown st nodeKey)).moveListenerAttached = false ∧
      (dispatchDocumentMouseUp (onNodeMousedown st nodeKey)).mousedownNodeKey = none ∧
      (dispatchDocumentMouseUp (onNodeMousedown st nodeKey)).viewportPaused = false ∧
      dispatchDocumentMouseMove (dispatchDocumentMouseUp (onNodeMousedown st nodeKey))
        worldPosition = dispatchDocumentMouseUp (onNodeMousedown st nodeKey)) ∧
    (∀ (g : List (String × ℚ × ℚ)) (events : List UiEvent),
      (runEvents (initialDragState g) events).mousedownNodeKey = none →
      (runEvents (initialDragState g) events).moveListenerAttached = false) := by
  constructor
  · intro st nodeKey worldPosition
    refine ⟨rfl, rfl, rfl, ?_⟩
    simp [dispatchDocumentMouseMove, dispatchDocumentMouseUp, onNodeMousedown]
  · intro g events
    exact dragListenerInvRun events (initialDragState g) (fun _ => rfl)

/-- Witness for C6 at a concrete input: press on node "a", release, then a
stray pointer move; the invariant also evaluates on a concrete event
sequence. -/
theorem spec_c6_witness :
    dispatchDocumentMouseMove
        (dispatchDocumentMouseUp (onNodeMousedown (initialDragState [("a", 0, 0)]) "a"))
        (5, 5) =
      dispatchDocumentMouseUp (onNodeMousedown (initialDragState [("a", 0, 0)]) "a") ∧
    (runEvents (initialDragState [("a", 0, 0)])
      [UiEvent.nodeMousedown "a", UiEvent.documentMouseUp]).moveListenerAttached = false :=
  ⟨(spec_c6.1 (initialDragState [("a", 0, 0)]) "a" (5, 5)).2.2.2,
    spec_c6.2 [("a", 0, 0)] [UiEvent.nodeMousedown "a", UiEvent.documentMouseUp] rfl⟩
